import Mathlib

/-!
Verification of the FindSim fingerprint pipeline.

Shallow embedding of the repository's code:
* `url_list_similarity.py` (`UrlListSimilarity._normalize`, `UrlListSimilarity.jaccard`),
  including a model of CPython's `urllib.parse.urlsplit` (CPython 3.10 semantics;
  the `_checknetloc` NFKC check, which can only raise for non-ASCII authorities, and the
  post-3.11 bracketed-host validation are not modelled),
* `fofa_search.py` (`FofaSearch.fofa_query`),
* `main.py` (`get_fingerprints_sum` and the filter / rank / cross-validate phases of
  `process_single_url`).

Python floats are modelled as exact rationals (`ℚ`); Python exceptions as `Except`.
-/

namespace FindSim

/-! ### Model of CPython `urllib.parse.urlsplit` (the pieces `_normalize` uses) -/

/-- The result record of `urlsplit` (fields `scheme, netloc, path, query, fragment`). -/
structure SplitResult where
  scheme : String
  netloc : String
  path : String
  query : String
  fragment : String
deriving DecidableEq, Repr

/-- CPython removes `'\t'`, `'\r'`, `'\n'` from the URL before parsing
(`_UNSAFE_URL_BYTES_TO_REMOVE`). -/
def removeUnsafeChars (l : List Char) : List Char :=
  l.filter (fun c => !(c == '\t' || c == '\r' || c == '\n'))

/-- CPython `scheme_chars`: ASCII letters, digits, and `+`, `-`, `.`. -/
def schemeChar (c : Char) : Bool :=
  c.isAlpha || c.isDigit || c == '+' || c == '-' || c == '.'

/-- `i = url.find(':')`; when `i > 0`, `url[0]` is an ASCII letter and every char of
`url[1:i]` is a scheme char, split off the (lower-cased) scheme. -/
def splitScheme (url : List Char) : List Char × List Char :=
  match url.findIdx? (· == ':') with
  | some i =>
      if 0 < i ∧ (url.headD ' ').isAlpha ∧ ((url.take i).drop 1).all schemeChar then
        ((url.take i).map Char.toLower, url.drop (i + 1))
      else ([], url)
  | none => ([], url)

/-- The characters at which `_splitnetloc` stops: `'/'`, `'?'`, `'#'`. -/
def netlocDelim (c : Char) : Bool := c == '/' || c == '?' || c == '#'

/-- `url.split(sep, 1)` when `sep` occurs, else `(url, "")`: the part before the first
occurrence of `sep` and the part after it. -/
def splitOnFirst (sep : Char) (url : List Char) : List Char × List Char :=
  (url.takeWhile (fun c => !(c == sep)), (url.dropWhile (fun c => !(c == sep))).drop 1)

/-- Model of `urllib.parse.urlsplit` with `allow_fragments=True`.
Returns `Except.error "Invalid IPv6 URL"` exactly where CPython raises
`ValueError("Invalid IPv6 URL")`: a netloc containing `'['` without `']'` or
vice versa. -/
def urlsplit (s : String) : Except String SplitResult :=
  let url0 := removeUnsafeChars s.toList
  let sp := splitScheme url0
  let scheme := sp.1
  match sp.2 with
  | '/' :: '/' :: rest =>
      let netloc := rest.takeWhile (fun c => !(netlocDelim c))
      let url1 := rest.dropWhile (fun c => !(netlocDelim c))
      if ('[' ∈ netloc ∧ ']' ∉ netloc) ∨ (']' ∈ netloc ∧ '[' ∉ netloc) then
        .error "Invalid IPv6 URL"
      else
        let fr := splitOnFirst '#' url1
        let qu := splitOnFirst '?' fr.1
        .ok ⟨scheme.asString, netloc.asString, qu.1.asString, qu.2.asString, fr.2.asString⟩
  | other =>
      let fr := splitOnFirst '#' other
      let qu := splitOnFirst '?' fr.1
      .ok ⟨scheme.asString, "", qu.1.asString, qu.2.asString, fr.2.asString⟩

/-! ### `url_list_similarity.py` -/

/-- Python ASCII whitespace as stripped by `str.strip()` (the inputs the pipeline
produces are ASCII; the additional Unicode space characters are not modelled). -/
def pySpace (c : Char) : Bool :=
  c == ' ' || c == '\t' || c == '\n' || c == '\r' || c == '\x0b' || c == '\x0c'

/-- `str.strip()`: drop leading and trailing whitespace. -/
def pyStrip (s : String) : String :=
  (((s.toList.dropWhile pySpace).reverse.dropWhile pySpace).reverse).asString

/-- The loop body of `UrlListSimilarity._normalize`, with the accumulating set
explicit.  `if not u: continue` skips empty strings; otherwise `u = u.strip()` and
`normed.add(urlsplit(u).path)`.  A `ValueError` from `urlsplit` propagates. -/
def normAcc (normed : Finset String) : List String → Except String (Finset String)
  | [] => .ok normed
  | u :: us =>
      if u = "" then normAcc normed us
      else
        match urlsplit (pyStrip u) with
        | .error e => .error e
        | .ok r => normAcc (insert r.path normed) us

/-- `UrlListSimilarity._normalize`. -/
def _normalize (urls : List String) : Except String (Finset String) :=
  normAcc ∅ urls

/-- `UrlListSimilarity.jaccard`: normalize both lists; `1.0` if both sets are empty,
`0.0` if exactly one is, else `|s1 ∩ s2| / |s1 ∪ s2|`. -/
def jaccard (urls1 urls2 : List String) : Except String ℚ :=
  match _normalize urls1 with
  | .error e => .error e
  | .ok s1 =>
      match _normalize urls2 with
      | .error e => .error e
      | .ok s2 =>
          if s1 = ∅ ∧ s2 = ∅ then .ok 1
          else if s1 = ∅ ∨ s2 = ∅ then .ok 0
          else .ok (((s1 ∩ s2).card : ℚ) / ((s1 ∪ s2).card : ℚ))

/-! ### `main.py`: `get_fingerprints_sum` -/

/-- `os.path.basename` for POSIX paths: the substring after the last `'/'`
(`i = p.rfind('/') + 1; return p[i:]`). -/
def basename (p : String) : String :=
  ((p.toList.reverse.takeWhile (fun c => !(c == '/'))).reverse).asString

/-- The loop body of `get_fingerprints_sum`: append `basename fp` when it is
non-empty, not already in the accumulated result, and `fp != "/" + basename fp`. -/
def sumStep (result : List String) (fp : String) : List String :=
  if basename fp ≠ "" ∧ basename fp ∉ result ∧ fp ≠ "/" ++ basename fp then
    result ++ [basename fp]
  else result

/-- `get_fingerprints_sum`: start from a copy of `fingerprints` (`list(fingerprints)`)
and run the append loop over `fingerprints`. -/
def get_fingerprints_sum (fingerprints : List String) : List String :=
  fingerprints.foldl sumStep fingerprints

/-! ### `fofa_search.py`: `FofaSearch.fofa_query` -/

/-- One row of a FOFA result (`fields=ip,port,host,icp,link`); `main.py` reads
index 4, the `link` field. -/
structure SearchHit where
  ip : String
  port : String
  host : String
  icp : String
  link : String
deriving DecidableEq, Repr

/-- What the single `httpx.get` call inside `fofa_query` produces.
`requestError` models an `httpx.RequestError` (timeout, connection failure) — the one
exception class the surrounding `except` clause catches.  `response status body`
models a completed HTTP response; `body = none` models a body that is not valid
JSON (so `resp.json()` raises), `body = some results` models parsed JSON whose
`"results"` field is `results` (`some []` when the field is missing or empty). -/
inductive FofaResponse where
  | requestError
  | response (status : Nat) (body : Option (List SearchHit))

/-- The exceptions `fofa_query` can let escape: `resp.raise_for_status()` raises
`httpx.HTTPStatusError` on a non-2xx status (not a subclass of
`httpx.RequestError`, hence uncaught), and `resp.json()` raises a JSON decode
error on a malformed body (also uncaught). -/
inductive FofaFailure where
  | httpStatusError
  | jsonDecodeError
deriving DecidableEq, Repr

/-- `FofaSearch.fofa_query`: `try: resp = httpx.get(...); resp.raise_for_status();
if resp.json().get("results"): return data else: return []
except httpx.RequestError: return []`. -/
def fofa_query : FofaResponse → Except FofaFailure (List SearchHit)
  | .requestError => .ok []
  | .response status body =>
      if status < 200 ∨ 300 ≤ status then .error .httpStatusError
      else
        match body with
        | none => .error .jsonDecodeError
        | some results =>
            if results.length ≠ 0 then .ok results else .ok []

/-! ### `main.py`: the filter / sample phase of `process_single_url`

The loop over `fingerprints` queries FOFA once per fingerprint and keeps, for each
fingerprint whose result list is non-empty and shorter than 5000 rows, the pair of
dict entries `final_results[finger]` (the `link` fields of the first
`min(len(res), 10)` rows) and `final_results_count[finger]` (`len(res)`).  The two
dicts share keys and insertion order, so they are modelled as one list of triples
`(finger, hit_count, sampled links)`. -/

/-- The loop body for one fingerprint and its query result: `if fofa_search_res:`
(non-empty), reject when `len(fofa_search_res) >= 5000`, otherwise record the hit
count and the `link` fields of the first `min(len(fofa_search_res), 10)` rows. -/
def filterStep (acc : List (String × Nat × List String)) (fr : String × List SearchHit) :
    List (String × Nat × List String) :=
  if fr.2.length ≠ 0 then
    if 5000 ≤ fr.2.length then acc
    else
      acc ++ [(fr.1, fr.2.length, (fr.2.take (min fr.2.length 10)).map SearchHit.link)]
  else acc

/-- The filter / sample phase, as a fold over the per-fingerprint query results. -/
def filterPhase (queryResults : List (String × List SearchHit)) :
    List (String × Nat × List String) :=
  queryResults.foldl filterStep []

/-! ### `main.py`: the ranking step

`sorted(final_results_count.items(), key=lambda x: x[1])` — Python's `sorted` is a
stable sort by the key `x[1]` (the hit count); a stable sort is extensionally
insertion sort, so it is modelled by `List.insertionSort`. -/

/-- The sort key relation: compare hit counts. -/
def countLE (a b : String × Nat) : Prop := a.2 ≤ b.2

instance : DecidableRel countLE := fun a b => inferInstanceAs (Decidable (a.2 ≤ b.2))

instance : IsTotal (String × Nat) countLE := ⟨fun a b => Nat.le_total a.2 b.2⟩

instance : IsTrans (String × Nat) countLE := ⟨fun _ _ _ h1 h2 => Nat.le_trans h1 h2⟩

/-- `sorted(final_results_count.items(), key=lambda x: x[1])`. -/
def sortByCount (l : List (String × Nat)) : List (String × Nat) :=
  List.insertionSort countLE l

/-! ### `main.py`: the cross-validation phase of `process_single_url`

For one candidate, each sampled hit is visited inside `try:`; on success the visit
yields a Jaccard score, on any exception the sample is skipped (`continue`).  One
sample is therefore modelled as `Option ℚ`: `none` for a failed visit
(extraction, classification or similarity raised), `some sim` for a successful one. -/

/-- One iteration of the per-candidate similarity-collection loop: append `sim`
to `sim_list` only when the visit succeeded (`some sim`) and `sim > 0.1`; a failed
visit (`none`, the `except ... continue` branch) leaves `sim_list` unchanged. -/
def simStep (sim_list : List ℚ) (o : Option ℚ) : List ℚ :=
  match o with
  | some sim => if (1 : ℚ)/10 < sim then sim_list ++ [sim] else sim_list
  | none => sim_list

/-- The per-candidate similarity-collection loop over all sampled hits. -/
def simListOf (outcomes : List (Option ℚ)) : List ℚ :=
  outcomes.foldl simStep []

/-- The three-way outcome of the `if len(sim_list): if avg >= 0.4 ... else ...`
block (an empty `sim_list` records nothing at all — `inconclusive`). -/
inductive Verdict where
  | valid
  | invalid
  | inconclusive
deriving DecidableEq, Repr

/-- The verdict the block assigns to a collected similarity list. -/
def verdictOf (sim_list : List ℚ) : Verdict :=
  if sim_list.length ≠ 0 then
    if (2 : ℚ)/5 ≤ sim_list.sum / (sim_list.length : ℚ) then .valid else .invalid
  else .inconclusive

/-- One entry of `valid_fingerprint_results` (`avg_similar` kept as the exact
rational rather than its 2-decimal rendering). -/
structure ValidResult where
  finger : String
  avg_similar : ℚ
  url_count : Nat
deriving DecidableEq, Repr

/-- One candidate's contribution to `valid_fingerprint_results`: the candidate is
`(finger, url_count, sample outcomes)`; an entry is appended exactly when its
`sim_list` is non-empty and the average is `>= 0.4`. -/
def validStep (acc : List ValidResult) (c : String × Nat × List (Option ℚ)) :
    List ValidResult :=
  if (simListOf c.2.2).length ≠ 0 then
    if (2 : ℚ)/5 ≤ (simListOf c.2.2).sum / ((simListOf c.2.2).length : ℚ) then
      acc ++ [⟨c.1, (simListOf c.2.2).sum / ((simListOf c.2.2).length : ℚ), c.2.1⟩]
    else acc
  else acc

/-- The full report accumulation over all ranked candidates. -/
def validReport (cands : List (String × Nat × List (Option ℚ))) : List ValidResult :=
  cands.foldl validStep []

/-! ### Helper lemmas -/

/-- A left fold whose step function only appends to its accumulator factors over
the initial accumulator. -/
theorem foldl_append_init {β γ : Type} (step : List γ → β → List γ)
    (hstep : ∀ acc b, step acc b = acc ++ step [] b) :
    ∀ (l : List β) (acc : List γ), List.foldl step acc l = acc ++ List.foldl step [] l
  | [], acc => by simp
  | b :: l, acc => by
    rw [List.foldl_cons, List.foldl_cons, foldl_append_init step hstep l (step acc b),
      foldl_append_init step hstep l (step [] b), hstep acc b, List.append_assoc]

theorem simStep_append (acc : List ℚ) (o : Option ℚ) : simStep acc o = acc ++ simStep [] o := by
  cases o with
  | none => simp [simStep]
  | some s =>
    simp only [simStep]
    split_ifs <;> simp

theorem simListOf_nil : simListOf [] = [] := rfl

theorem simListOf_cons (o : Option ℚ) (l : List (Option ℚ)) :
    simListOf (o :: l) = simStep [] o ++ simListOf l := by
  unfold simListOf
  rw [List.foldl_cons, foldl_append_init simStep simStep_append l (simStep [] o)]

theorem mem_simListOf {l : List (Option ℚ)} {s : ℚ} (h : s ∈ simListOf l) :
    some s ∈ l ∧ (1 : ℚ)/10 < s := by
  induction l with
  | nil => simp [simListOf] at h
  | cons o l ih =>
    rw [simListOf_cons] at h
    rcases List.mem_append.mp h with h1 | h2
    · cases o with
      | none => simp [simStep] at h1
      | some x =>
        simp only [simStep] at h1
        split_ifs at h1 with hx
        · simp only [List.nil_append, List.mem_singleton] at h1
          exact ⟨by simp [h1], h1 ▸ hx⟩
        · simp at h1
    · obtain ⟨h2a, h2b⟩ := ih h2
      exact ⟨List.mem_cons_of_mem _ h2a, h2b⟩

/-! ### Claim C2 -/

/-- C2: a similarity score is recorded only for a sample whose visit succeeded and
whose Jaccard score is strictly above the noise floor 0.1; a failed visit
(`none`) is skipped without recording a zero and the remaining samples are still
processed, and a score at or below 0.1 is likewise skipped. -/
theorem C2_scores_recorded_iff_success_above_noise :
    (∀ (l : List (Option ℚ)) (s : ℚ), s ∈ simListOf l → some s ∈ l ∧ (1 : ℚ)/10 < s) ∧
    (∀ l : List (Option ℚ), simListOf (none :: l) = simListOf l) ∧
    (∀ (l : List (Option ℚ)) (s : ℚ),
      simListOf (some s :: l) =
        if (1 : ℚ)/10 < s then s :: simListOf l else simListOf l) := by
  refine ⟨fun l s h => mem_simListOf h, fun l => ?_, fun l s => ?_⟩
  · rw [simListOf_cons]; rfl
  · rw [simListOf_cons]
    simp only [simStep]
    split_ifs <;> simp

/-- Witness for C2 at concrete inputs: the score 1/2 recorded from
`[none, some (1/2), some (1/20)]` indeed came from a successful sample above the
noise floor, and the two skip equations evaluate on those inputs. -/
theorem C2_witness :
    (some (1/2 : ℚ) ∈ [none, some (1/2 : ℚ), some (1/20)] ∧ (1 : ℚ)/10 < 1/2) ∧
    simListOf [none, some (1/2 : ℚ)] = simListOf [some (1/2 : ℚ)] ∧
    simListOf [some (1/20 : ℚ)] =
      (if (1 : ℚ)/10 < 1/20 then (1/20 : ℚ) :: simListOf [] else simListOf []) :=
  ⟨C2_scores_recorded_iff_success_above_noise.1 [none, some (1/2), some (1/20)] (1/2)
      (by norm_num [simListOf, simStep]),
    C2_scores_recorded_iff_success_above_noise.2.1 [some (1/2)],
    C2_scores_recorded_iff_success_above_noise.2.2 [] (1/20)⟩

theorem validStep_append (acc : List ValidResult) (c : String × Nat × List (Option ℚ)) :
    validStep acc c = acc ++ validStep [] c := by
  unfold validStep
  split_ifs <;> simp

theorem validReport_cons (c : String × Nat × List (Option ℚ))
    (l : List (String × Nat × List (Option ℚ))) :
    validReport (c :: l) = validStep [] c ++ validReport l := by
  unfold validReport
  rw [List.foldl_cons, foldl_append_init validStep validStep_append l (validStep [] c)]

theorem mem_validReport {cands : List (String × Nat × List (Option ℚ))} {r : ValidResult}
    (h : r ∈ validReport cands) :
    ∃ c ∈ cands, c.1 = r.finger ∧ simListOf c.2.2 ≠ [] ∧
      verdictOf (simListOf c.2.2) = Verdict.valid := by
  induction cands with
  | nil => simp [validReport] at h
  | cons c l ih =>
    rw [validReport_cons] at h
    rcases List.mem_append.mp h with h1 | h2
    · unfold validStep at h1
      split_ifs at h1 with hlen havg
      · simp only [List.nil_append, List.mem_singleton] at h1
        refine ⟨c, List.mem_cons_self c l, ?_, ?_, ?_⟩
        · rw [h1]
        · exact fun hnil => hlen (by rw [hnil]; rfl)
        · unfold verdictOf
          rw [if_pos hlen, if_pos havg]
      · simp at h1
      · simp at h1
    · obtain ⟨c', hc', rest⟩ := ih h2
      exact ⟨c', List.mem_cons_of_mem _ hc', rest⟩

/-! ### Claim C1 -/

/-- C1: with at least one recorded score the verdict is `valid` exactly when the
mean of the recorded scores is at least 0.4 and `invalid` exactly when it is
below 0.4 (boundary inclusive: the scores 0.5, 0.5, 0.2 average exactly to 0.4
and are `valid`); with no recorded score the verdict is `inconclusive`, and every
entry of the final valid-fingerprint report comes from a candidate with a
non-empty score list and verdict `valid` — an inconclusive candidate is never in
the report. -/
theorem C1_valid_iff_mean_at_least_threshold :
    (∀ sim_list : List ℚ, sim_list ≠ [] →
      (verdictOf sim_list = Verdict.valid ↔
          (2 : ℚ)/5 ≤ sim_list.sum / (sim_list.length : ℚ)) ∧
      (verdictOf sim_list = Verdict.invalid ↔
          sim_list.sum / (sim_list.length : ℚ) < (2 : ℚ)/5)) ∧
    verdictOf [(1 : ℚ)/2, 1/2, 1/5] = Verdict.valid ∧
    verdictOf ([] : List ℚ) = Verdict.inconclusive ∧
    (∀ (cands : List (String × Nat × List (Option ℚ))) (r : ValidResult),
      r ∈ validReport cands →
      ∃ c ∈ cands, c.1 = r.finger ∧ simListOf c.2.2 ≠ [] ∧
        verdictOf (simListOf c.2.2) = Verdict.valid) := by
  refine ⟨fun sim_list hne => ?_, by norm_num [verdictOf], rfl,
    fun cands r h => mem_validReport h⟩
  have hlen : sim_list.length ≠ 0 := fun h0 => hne (List.length_eq_zero.mp h0)
  unfold verdictOf
  rw [if_pos hlen]
  by_cases h : (2 : ℚ)/5 ≤ sim_list.sum / (sim_list.length : ℚ)
  · rw [if_pos h]
    exact And.intro (Iff.intro (fun _ => h) (fun _ => rfl))
      (Iff.intro (fun hv => nomatch hv) (fun hlt => absurd h (not_le.mpr hlt)))
  · rw [if_neg h]
    exact And.intro (Iff.intro (fun hv => nomatch hv) (fun hle => absurd hle h))
      (Iff.intro (fun _ => not_le.mp h) (fun _ => rfl))

/-- Witness for C1: the score list `[1/2]` is non-empty, its verdict is decided by
the threshold test, and the report built from the single candidate
`("f", 3, [some (1/2)])` contains only candidates with verdict `valid`. -/
theorem C1_witness :
    (verdictOf [(1 : ℚ)/2] = Verdict.valid ↔
      (2 : ℚ)/5 ≤ ([(1 : ℚ)/2] : List ℚ).sum / (([(1 : ℚ)/2] : List ℚ).length : ℚ)) ∧
    ∃ c ∈ [(("f", 3, [some ((1 : ℚ)/2)]) : String × Nat × List (Option ℚ))],
      c.1 = (⟨"f", 1/2, 3⟩ : ValidResult).finger ∧ simListOf c.2.2 ≠ [] ∧
        verdictOf (simListOf c.2.2) = Verdict.valid :=
  ⟨(C1_valid_iff_mean_at_least_threshold.1 [(1 : ℚ)/2] (by simp)).1,
    C1_valid_iff_mean_at_least_threshold.2.2.2 [("f", 3, [some (1/2)])] ⟨"f", 1/2, 3⟩
      (by norm_num [validReport, validStep, simListOf, simStep])⟩

theorem filterStep_append (acc : List (String × Nat × List String))
    (fr : String × List SearchHit) : filterStep acc fr = acc ++ filterStep [] fr := by
  unfold filterStep
  split_ifs <;> simp

theorem filterPhase_cons (fr : String × List SearchHit) (l : List (String × List SearchHit)) :
    filterPhase (fr :: l) = filterStep [] fr ++ filterPhase l := by
  unfold filterPhase
  rw [List.foldl_cons, foldl_append_init filterStep filterStep_append l (filterStep [] fr)]

theorem mem_filterPhase {qrs : List (String × List SearchHit)} {e : String × Nat × List String}
    (h : e ∈ filterPhase qrs) :
    ∃ res, (e.1, res) ∈ qrs ∧ res.length ≠ 0 ∧ res.length < 5000 ∧
      e.2.1 = res.length ∧ e.2.2 = (res.take (min res.length 10)).map SearchHit.link := by
  induction qrs with
  | nil => simp [filterPhase] at h
  | cons fr l ih =>
    rw [filterPhase_cons] at h
    rcases List.mem_append.mp h with h1 | h2
    · unfold filterStep at h1
      split_ifs at h1 with h1a h1b
      · simp at h1
      · simp only [List.nil_append, List.mem_singleton] at h1
        subst h1
        exact ⟨fr.2, by simp, h1a, not_le.mp h1b, rfl, rfl⟩
      · simp at h1
    · obtain ⟨res, hres, rest⟩ := ih h2
      exact ⟨res, List.mem_cons_of_mem _ hres, rest⟩

theorem survives_mem_filterPhase {qrs : List (String × List SearchHit)} {f : String}
    {res : List SearchHit} (hmem : (f, res) ∈ qrs) (h1 : res.length ≠ 0)
    (h2 : res.length < 5000) :
    (f, res.length, (res.take (min res.length 10)).map SearchHit.link) ∈ filterPhase qrs := by
  induction qrs with
  | nil => simp at hmem
  | cons q l ih =>
    rw [filterPhase_cons, List.mem_append]
    rcases List.mem_cons.mp hmem with heq | hl
    · left
      rw [← heq]
      unfold filterStep
      rw [if_pos (by simpa using h1), if_neg (by simpa using not_le.mpr h2)]
      simp
    · right
      exact ih hl

/-! ### Claim C3 -/

/-- C3: in the filter phase, a candidate all of whose query results are empty
(0 hits) never appears in the output; a candidate all of whose query results have
at least 5000 hits is rejected; and a candidate with a query result of between 1
and 4999 hits survives, carrying its hit count and sampled links. -/
theorem C3_zero_and_5000_rejected_4999_survives :
    (∀ (qrs : List (String × List SearchHit)) (f : String),
      (∀ res, (f, res) ∈ qrs → res.length = 0) →
      ∀ e ∈ filterPhase qrs, e.1 ≠ f) ∧
    (∀ (qrs : List (String × List SearchHit)) (f : String),
      (∀ res, (f, res) ∈ qrs → 5000 ≤ res.length) →
      ∀ e ∈ filterPhase qrs, e.1 ≠ f) ∧
    (∀ (qrs : List (String × List SearchHit)) (f : String) (res : List SearchHit),
      (f, res) ∈ qrs → 1 ≤ res.length → res.length ≤ 4999 →
      (f, res.length, (res.take (min res.length 10)).map SearchHit.link) ∈ filterPhase qrs) := by
  refine ⟨fun qrs f hall e he hef => ?_, fun qrs f hall e he hef => ?_,
    fun qrs f res hmem hlo hhi => ?_⟩
  · obtain ⟨res, hres, hne, _, _, _⟩ := mem_filterPhase he
    rw [hef] at hres
    exact hne (hall res hres)
  · obtain ⟨res, hres, _, hlt, _, _⟩ := mem_filterPhase he
    rw [hef] at hres
    exact absurd (hall res hres) (not_le.mpr hlt)
  · exact survives_mem_filterPhase hmem (by omega) (by omega)

set_option maxRecDepth 8192 in
/-- Witness for C3 on a concrete query-result list: the zero-hit candidate `"z"`
and the 5000-hit candidate `"g"` are absent, the 1-hit candidate `"f"` survives
with its hit count and sampled link. -/
theorem C3_witness :
    ((("f", 1, ["http://h"]) : String × Nat × List String).1 ≠ "z") ∧
    ((("f", 1, ["http://h"]) : String × Nat × List String).1 ≠ "g") ∧
    (("f", 1, ["http://h"]) : String × Nat × List String) ∈
      filterPhase [("z", ([] : List SearchHit)),
        ("g", List.replicate 5000 ⟨"ip", "p", "h", "i", "l"⟩),
        ("f", [⟨"ip", "p", "h", "i", "http://h"⟩])] := by
  have hlen : (List.replicate 5000 (⟨"ip", "p", "h", "i", "l"⟩ : SearchHit)).length = 5000 :=
    List.length_replicate 5000 _
  have hz : filterStep [] ("z", ([] : List SearchHit)) = [] := by
    unfold filterStep
    simp
  have hg : filterStep []
      ("g", List.replicate 5000 (⟨"ip", "p", "h", "i", "l"⟩ : SearchHit)) = [] := by
    unfold filterStep
    simp only [List.length_replicate]
    norm_num
  have hf : filterStep [] ("f", [(⟨"ip", "p", "h", "i", "http://h"⟩ : SearchHit)]) =
      [("f", 1, ["http://h"])] := by
    unfold filterStep
    simp [SearchHit.link]
  have hphase : filterPhase [("z", ([] : List SearchHit)),
      ("g", List.replicate 5000 ⟨"ip", "p", "h", "i", "l"⟩),
      ("f", [⟨"ip", "p", "h", "i", "http://h"⟩])] = [("f", 1, ["http://h"])] := by
    rw [filterPhase_cons, hz, filterPhase_cons, hg, filterPhase_cons, hf]
    rfl
  have hmem2 : ∀ x ∈ [("z", ([] : List SearchHit)),
      ("g", List.replicate 5000 (⟨"ip", "p", "h", "i", "l"⟩ : SearchHit)),
      ("f", [(⟨"ip", "p", "h", "i", "http://h"⟩ : SearchHit)])],
      x = ("z", ([] : List SearchHit)) ∨
      x = ("g", List.replicate 5000 (⟨"ip", "p", "h", "i", "l"⟩ : SearchHit)) ∨
      x = ("f", [(⟨"ip", "p", "h", "i", "http://h"⟩ : SearchHit)]) := by
    intro x hx
    rcases List.mem_cons.mp hx with h1 | hx
    · exact Or.inl h1
    rcases List.mem_cons.mp hx with h2 | hx
    · exact Or.inr (Or.inl h2)
    rcases List.mem_cons.mp hx with h3 | hx
    · exact Or.inr (Or.inr h3)
    · exact absurd hx (List.not_mem_nil x)
  have hypz : ∀ res, (("z" : String), res) ∈ [("z", ([] : List SearchHit)),
      ("g", List.replicate 5000 (⟨"ip", "p", "h", "i", "l"⟩ : SearchHit)),
      ("f", [(⟨"ip", "p", "h", "i", "http://h"⟩ : SearchHit)])] → res.length = 0 := by
    intro res h
    rcases hmem2 _ h with h1 | h1 | h1
    · rw [(Prod.mk.injEq _ _ _ _).mp h1 |>.2]
      rfl
    · exact absurd ((Prod.mk.injEq _ _ _ _).mp h1).1 (by decide)
    · exact absurd ((Prod.mk.injEq _ _ _ _).mp h1).1 (by decide)
  have hypg : ∀ res, (("g" : String), res) ∈ [("z", ([] : List SearchHit)),
      ("g", List.replicate 5000 (⟨"ip", "p", "h", "i", "l"⟩ : SearchHit)),
      ("f", [(⟨"ip", "p", "h", "i", "http://h"⟩ : SearchHit)])] → 5000 ≤ res.length := by
    intro res h
    rcases hmem2 _ h with h1 | h1 | h1
    · exact absurd ((Prod.mk.injEq _ _ _ _).mp h1).1 (by decide)
    · rw [(Prod.mk.injEq _ _ _ _).mp h1 |>.2, hlen]
    · exact absurd ((Prod.mk.injEq _ _ _ _).mp h1).1 (by decide)
  refine ⟨?_, ?_, ?_⟩
  · exact C3_zero_and_5000_rejected_4999_survives.1 _ "z" hypz ("f", 1, ["http://h"])
      (by rw [hphase]; exact List.mem_singleton.mpr rfl)
  · exact C3_zero_and_5000_rejected_4999_survives.2.1 _ "g" hypg ("f", 1, ["http://h"])
      (by rw [hphase]; exact List.mem_singleton.mpr rfl)
  · exact C3_zero_and_5000_rejected_4999_survives.2.2 _ "f"
      [(⟨"ip", "p", "h", "i", "http://h"⟩ : SearchHit)]
      (List.mem_cons_of_mem _ (List.mem_cons_of_mem _ (List.mem_singleton.mpr rfl)))
      (by simp) (by simp)

/-! ### Claim C4 -/

/-- C4: the ranked candidate sequence handed to cross-validation is sorted
ascending by hit count, is a permutation of the surviving candidates, and two
candidates with equal hit counts keep their original relative (insertion) order —
Python's `sorted` is stable, modelled by insertion sort. -/
theorem C4_ranked_ascending_and_stable (l : List (String × Nat)) :
    (sortByCount l).Sorted countLE ∧ (sortByCount l).Perm l ∧
    (∀ a b : String × Nat, a.2 = b.2 → List.Sublist [a, b] l →
      List.Sublist [a, b] (sortByCount l)) :=
  ⟨List.sorted_insertionSort countLE l, List.perm_insertionSort countLE l,
    fun a b hab h =>
      List.pair_sublist_insertionSort (show countLE a b from le_of_eq hab) h⟩

/-- Witness for C4: in `[("a", 7), ("b", 3), ("c", 7)]` the tied candidates
`("a", 7)` and `("c", 7)` keep their relative order after ranking. -/
theorem C4_witness :
    List.Sublist [(("a" : String), 7), ("c", 7)] (sortByCount [("a", 7), ("b", 3), ("c", 7)]) :=
  (C4_ranked_ascending_and_stable [("a", 7), ("b", 3), ("c", 7)]).2.2 ("a", 7) ("c", 7) rfl
    (List.Sublist.cons₂ _ (List.Sublist.cons _ (List.Sublist.cons₂ _ List.Sublist.slnil)))

/-! ### Claim C5 -/

/-- C5 counterexample: the code performs no exclusion of hit targets beginning
with `"0"` — a single-hit result whose link is `"0.0.0.0"` (which begins with the
character `'0'`) is sampled anyway, contradicting the claimed exclusion. -/
theorem C5_counterexample :
    filterPhase [("f", [(⟨"0.0.0.0", "80", "0.0.0.0", "", "0.0.0.0"⟩ : SearchHit)])] =
      [("f", 1, ["0.0.0.0"])] ∧
    "0.0.0.0".toList.headD ' ' = '0' := by
  refine ⟨?_, rfl⟩
  rw [filterPhase_cons]
  have h : filterStep [] ("f", [(⟨"0.0.0.0", "80", "0.0.0.0", "", "0.0.0.0"⟩ : SearchHit)]) =
      [("f", 1, ["0.0.0.0"])] := by
    unfold filterStep
    simp [SearchHit.link]
  rw [h]
  rfl

/-- C5 (amended): for every surviving candidate the sampled hits are exactly the
`link` fields of the first `min(hit_count, 10)` rows returned by the search
oracle, and the sample length equals `min(hit_count, 10)`; no hit is excluded for
beginning with `"0"` (the code performs no such filtering). -/
theorem C5_sample_equals_first_min_hits :
    ∀ (qrs : List (String × List SearchHit)) (e : String × Nat × List String),
      e ∈ filterPhase qrs →
      ∃ res : List SearchHit, (e.1, res) ∈ qrs ∧ e.2.1 = res.length ∧
        e.2.2 = (res.take (min res.length 10)).map SearchHit.link ∧
        e.2.2.length = min res.length 10 := by
  intro qrs e he
  obtain ⟨res, h1, _, _, h4, h5⟩ := mem_filterPhase he
  refine ⟨res, h1, h4, h5, ?_⟩
  rw [h5, List.length_map, List.length_take]
  omega

/-- Witness for C5: applying the amended statement to the single-candidate result
list whose one hit link is `"0.0.0.0"`. -/
theorem C5_witness :
    ∃ res : List SearchHit,
      ((("f", 1, ["0.0.0.0"]) : String × Nat × List String).1, res) ∈
        [("f", [(⟨"0.0.0.0", "80", "0.0.0.0", "", "0.0.0.0"⟩ : SearchHit)])] ∧
      (("f", 1, ["0.0.0.0"]) : String × Nat × List String).2.1 = res.length ∧
      (("f", 1, ["0.0.0.0"]) : String × Nat × List String).2.2 =
        (res.take (min res.length 10)).map SearchHit.link ∧
      ((("f", 1, ["0.0.0.0"]) : String × Nat × List String)).2.2.length =
        min res.length 10 := by
  refine C5_sample_equals_first_min_hits
    [("f", [(⟨"0.0.0.0", "80", "0.0.0.0", "", "0.0.0.0"⟩ : SearchHit)])]
    ("f", 1, ["0.0.0.0"]) ?_
  rw [filterPhase_cons]
  have h : filterStep [] ("f", [(⟨"0.0.0.0", "80", "0.0.0.0", "", "0.0.0.0"⟩ : SearchHit)]) =
      [("f", 1, ["0.0.0.0"])] := by
    unfold filterStep
    simp [SearchHit.link]
  rw [h]
  exact List.mem_append_left _ (List.mem_singleton.mpr rfl)

/-! ### Claim C6 -/

/-- C6 counterexample: a non-2xx response does not produce an empty sequence —
`resp.raise_for_status()` raises `httpx.HTTPStatusError`, which the
`except httpx.RequestError` clause does not catch, so the exception escapes
`fofa_query` (and, since no caller in `process_single_url` catches it, aborts the
site's analysis) instead of the claimed empty-sequence return. -/
theorem C6_counterexample :
    fofa_query (.response 500 (some [])) = .error .httpStatusError := by
  unfold fofa_query
  norm_num

/-- C6 (amended): on a request-level transport failure (`httpx.RequestError`:
timeout, connection error) the gateway returns an empty sequence from its single
request, with no retry; but a non-2xx response raises `httpx.HTTPStatusError` and
a malformed (non-JSON) body raises a JSON decode error, both uncaught, so those
two failures abort the enclosing analysis rather than yielding an empty
sequence.  A well-formed 2xx response yields its `results` list. -/
theorem C6_request_error_empty_others_raise :
    fofa_query .requestError = .ok [] ∧
    (∀ (st : Nat) (body : Option (List SearchHit)), st < 200 ∨ 300 ≤ st →
      fofa_query (.response st body) = .error .httpStatusError) ∧
    (∀ st : Nat, 200 ≤ st → st < 300 →
      fofa_query (.response st none) = .error .jsonDecodeError) ∧
    (∀ (st : Nat) (results : List SearchHit), 200 ≤ st → st < 300 →
      fofa_query (.response st (some results)) = .ok results) := by
  refine ⟨rfl, fun st body h => ?_, fun st h1 h2 => ?_, fun st results h1 h2 => ?_⟩
  · simp only [fofa_query]
    rw [if_pos h]
  · simp only [fofa_query]
    rw [if_neg (by omega)]
  · simp only [fofa_query]
    rw [if_neg (by omega)]
    by_cases hr : results.length ≠ 0
    · rw [if_pos hr]
    · rw [if_neg hr]
      push_neg at hr
      rw [List.length_eq_zero.mp hr]

/-- Witness for C6 at concrete statuses: a request error yields `[]`, a 404 and a
malformed 200 body raise, and a well-formed 200 yields its rows. -/
theorem C6_witness :
    fofa_query .requestError = .ok [] ∧
    fofa_query (.response 404 (some [])) = .error .httpStatusError ∧
    fofa_query (.response 200 none) = .error .jsonDecodeError ∧
    fofa_query (.response 200 (some [⟨"i", "p", "h", "c", "l"⟩])) =
      .ok [⟨"i", "p", "h", "c", "l"⟩] :=
  ⟨C6_request_error_empty_others_raise.1,
    C6_request_error_empty_others_raise.2.1 404 (some []) (by omega),
    C6_request_error_empty_others_raise.2.2.1 200 (by omega) (by omega),
    C6_request_error_empty_others_raise.2.2.2 200 [⟨"i", "p", "h", "c", "l"⟩]
      (by omega) (by omega)⟩

/-! ### Helper lemmas for `get_fingerprints_sum` -/

theorem sumStep_extends (acc : List String) (fp : String) :
    List.IsPrefix acc (sumStep acc fp) := by
  unfold sumStep
  split_ifs
  · exact ⟨_, rfl⟩
  · exact ⟨[], List.append_nil acc⟩

theorem foldl_sumStep_extends :
    ∀ (fps acc : List String), List.IsPrefix acc (List.foldl sumStep acc fps)
  | [], acc => ⟨[], List.append_nil acc⟩
  | fp :: fps, acc => by
    rw [List.foldl_cons]
    exact (sumStep_extends acc fp).trans (foldl_sumStep_extends fps (sumStep acc fp))

theorem sumStep_nodup {acc : List String} (h : acc.Nodup) (fp : String) :
    (sumStep acc fp).Nodup := by
  unfold sumStep
  split_ifs with hc
  · simp [List.Nodup.append, h, hc.2.1]
  · exact h

theorem foldl_sumStep_nodup :
    ∀ (fps acc : List String), acc.Nodup → (List.foldl sumStep acc fps).Nodup
  | [], _, h => h
  | fp :: fps, acc, h => by
    rw [List.foldl_cons]
    exact foldl_sumStep_nodup fps (sumStep acc fp) (sumStep_nodup h fp)

theorem mem_foldl_sumStep :
    ∀ (fps acc : List String) (x : String), x ∈ List.foldl sumStep acc fps →
      x ∈ acc ∨ ∃ fp ∈ fps, x = basename fp ∧ x ≠ "" ∧ fp ≠ "/" ++ x
  | [], acc, x, h => Or.inl h
  | fp :: fps, acc, x, h => by
    rw [List.foldl_cons] at h
    rcases mem_foldl_sumStep fps (sumStep acc fp) x h with h1 | h1
    · unfold sumStep at h1
      split_ifs at h1 with hc
      · rcases List.mem_append.mp h1 with h2 | h2
        · exact Or.inl h2
        · refine Or.inr ⟨fp, List.mem_cons_self fp fps, List.mem_singleton.mp h2, ?_, ?_⟩
          · rw [List.mem_singleton.mp h2]; exact hc.1
          · rw [List.mem_singleton.mp h2]; exact hc.2.2
      · exact Or.inl h1
    · obtain ⟨fp', hfp', rest⟩ := h1
      exact Or.inr ⟨fp', List.mem_cons_of_mem _ hfp', rest⟩

/-! ### Claim C9 -/

/-- C9 counterexample: the output of `get_fingerprints_sum` is not deduplicated in
general — a duplicated input candidate survives in the output verbatim, so a value
can appear twice. -/
theorem C9_counterexample :
    get_fingerprints_sum ["/x/y", "/x/y"] = ["/x/y", "/x/y", "y"] ∧
    ¬ (["/x/y", "/x/y", "y"] : List String).Nodup := by
  constructor
  · rfl
  · decide

/-- C9 (amended): `get_fingerprints_sum` returns an order-preserving sequence that
starts with the input candidates and appends only final path segments (the
substring after the last `/`) of input candidates that are non-empty and differ
from `"/" ++ segment`; the output is duplicate-free whenever the input candidates
are themselves duplicate-free (a duplicated input is copied verbatim, so only
that case can produce duplicates); the three behavioural examples hold. -/
theorem C9_expand_keeps_input_appends_segments :
    get_fingerprints_sum ["/js/app.js"] = ["/js/app.js", "app.js"] ∧
    get_fingerprints_sum ["/app.js"] = ["/app.js"] ∧
    get_fingerprints_sum ["/js/app.js", "app.js"] = ["/js/app.js", "app.js"] ∧
    (∀ l : List String, List.IsPrefix l (get_fingerprints_sum l)) ∧
    (∀ l : List String, l.Nodup → (get_fingerprints_sum l).Nodup) ∧
    (∀ (l : List String) (x : String), x ∈ get_fingerprints_sum l →
      x ∈ l ∨ ∃ fp ∈ l, x = basename fp ∧ x ≠ "" ∧ fp ≠ "/" ++ x) :=
  ⟨rfl, rfl, rfl,
    fun l => foldl_sumStep_extends l l,
    fun l h => foldl_sumStep_nodup l l h,
    fun l x h => mem_foldl_sumStep l l x h⟩

/-- Witness for C9: the duplicate-freedom and membership clauses applied to the
concrete input `["/js/app.js"]`. -/
theorem C9_witness :
    (["/js/app.js", "app.js"] : List String).Nodup ∧
    ("app.js" ∈ (["/js/app.js"] : List String) ∨
      ∃ fp ∈ (["/js/app.js"] : List String),
        "app.js" = basename fp ∧ "app.js" ≠ "" ∧ fp ≠ "/" ++ "app.js") := by
  constructor
  · have h := C9_expand_keeps_input_appends_segments.2.2.2.2.1 ["/js/app.js"] (by decide)
    rw [C9_expand_keeps_input_appends_segments.1] at h
    exact h
  · exact C9_expand_keeps_input_appends_segments.2.2.2.2.2 ["/js/app.js"] "app.js"
      (by rw [C9_expand_keeps_input_appends_segments.1]; decide)

/-! ### Helper lemmas for `_normalize` and `jaccard` -/

theorem normAcc_total :
    ∀ (urls : List String) (acc : Finset String),
      (∀ u ∈ urls, ∃ r, urlsplit (pyStrip u) = .ok r) →
      ∃ s, normAcc acc urls = .ok s
  | [], acc, _ => ⟨acc, rfl⟩
  | u :: us, acc, h => by
    simp only [normAcc]
    by_cases hu : u = ""
    · rw [if_pos hu]
      exact normAcc_total us acc (fun v hv => h v (List.mem_cons_of_mem _ hv))
    · rw [if_neg hu]
      obtain ⟨r, hr⟩ := h u (List.mem_cons_self u us)
      rw [hr]
      exact normAcc_total us (insert r.path acc) (fun v hv => h v (List.mem_cons_of_mem _ hv))

theorem mem_normAcc_ok :
    ∀ (urls : List String) (acc s : Finset String), normAcc acc urls = .ok s →
      ∀ p : String, p ∈ s ↔ p ∈ acc ∨ ∃ u ∈ urls, u ≠ "" ∧
        ∃ r, urlsplit (pyStrip u) = .ok r ∧ r.path = p
  | [], acc, s, h, p => by
    simp only [normAcc, Except.ok.injEq] at h
    subst h
    simp
  | u :: us, acc, s, h, p => by
    simp only [normAcc] at h
    by_cases hu : u = ""
    · rw [if_pos hu] at h
      rw [mem_normAcc_ok us acc s h p]
      constructor
      · rintro (hp | ⟨v, hv, rest⟩)
        · exact Or.inl hp
        · exact Or.inr ⟨v, List.mem_cons_of_mem _ hv, rest⟩
      · rintro (hp | ⟨v, hv, hvne, r, hr, hrp⟩)
        · exact Or.inl hp
        · rcases List.mem_cons.mp hv with h1 | h1
          · exact absurd (h1.trans hu) hvne
          · exact Or.inr ⟨v, h1, hvne, r, hr, hrp⟩
    · rw [if_neg hu] at h
      cases hsp : urlsplit (pyStrip u) with
      | error e =>
          rw [hsp] at h
          exact absurd h (by simp)
      | ok r =>
          rw [hsp] at h
          rw [mem_normAcc_ok us (insert r.path acc) s h p, Finset.mem_insert]
          constructor
          · rintro ((hp | hp) | ⟨v, hv, rest⟩)
            · exact Or.inr ⟨u, List.mem_cons_self u us, hu, r, hsp, hp.symm⟩
            · exact Or.inl hp
            · exact Or.inr ⟨v, List.mem_cons_of_mem _ hv, rest⟩
          · rintro (hp | ⟨v, hv, hvne, r', hr', hrp⟩)
            · exact Or.inl (Or.inr hp)
            · rcases List.mem_cons.mp hv with h1 | h1
              · subst h1
                rw [hsp, Except.ok.injEq] at hr'
                exact Or.inl (Or.inl (hrp ▸ congrArg SplitResult.path hr').symm)
              · exact Or.inr ⟨v, h1, hvne, r', hr', hrp⟩

theorem jaccard_ok {A B : List String} {s1 s2 : Finset String}
    (h1 : _normalize A = .ok s1) (h2 : _normalize B = .ok s2) :
    jaccard A B = .ok (if s1 = ∅ ∧ s2 = ∅ then 1 else if s1 = ∅ ∨ s2 = ∅ then 0
      else ((s1 ∩ s2).card : ℚ) / ((s1 ∪ s2).card : ℚ)) := by
  unfold jaccard
  rw [h1, h2]
  dsimp only
  split_ifs <;> rfl

theorem splitOnFirst_path_chars (url : List Char) (c : Char)
    (h : c ∈ (splitOnFirst '?' (splitOnFirst '#' url).1).1) : c ≠ '?' ∧ c ≠ '#' := by
  have hq : c ∈ ((splitOnFirst '#' url).1).takeWhile (fun ch => !(ch == '?')) := h
  have h1 := List.mem_takeWhile_imp hq
  have hh : c ∈ url.takeWhile (fun ch => !(ch == '#')) :=
    (List.takeWhile_sublist _).subset hq
  have h3 := List.mem_takeWhile_imp hh
  exact ⟨by simpa using h1, by simpa using h3⟩

theorem urlsplit_path_chars :
    ∀ (u : String) (r : SplitResult), urlsplit u = .ok r →
      ∀ c ∈ r.path.toList, c ≠ '?' ∧ c ≠ '#' := by
  intro u r h c hc
  unfold urlsplit at h
  dsimp only at h
  split at h
  · split_ifs at h with hb
    simp only [Except.ok.injEq] at h
    subst h
    exact splitOnFirst_path_chars _ c hc
  · simp only [Except.ok.injEq] at h
    subst h
    exact splitOnFirst_path_chars _ c hc

/-! ### Claim C7 -/

/-- C7: when both input sequences normalize successfully, `jaccard` returns a
rational in `[0, 1]`; the value is 1 when both normalized sets are empty, 0 when
exactly one is empty, and otherwise the Jaccard index
`|s1 ∩ s2| / |s1 ∪ s2|` with a non-zero denominator (no division by zero). -/
theorem C7_jaccard_index_in_unit_interval :
    ∀ (A B : List String) (s1 s2 : Finset String),
      _normalize A = .ok s1 → _normalize B = .ok s2 →
      ∃ q : ℚ, jaccard A B = .ok q ∧ 0 ≤ q ∧ q ≤ 1 ∧
        (s1 = ∅ → s2 = ∅ → q = 1) ∧
        ((s1 = ∅ ∧ s2 ≠ ∅) ∨ (s1 ≠ ∅ ∧ s2 = ∅) → q = 0) ∧
        (s1 ≠ ∅ → s2 ≠ ∅ →
          q = ((s1 ∩ s2).card : ℚ) / ((s1 ∪ s2).card : ℚ) ∧ 0 < (s1 ∪ s2).card) := by
  intro A B s1 s2 h1 h2
  by_cases hs1 : s1 = ∅ <;> by_cases hs2 : s2 = ∅
  · refine ⟨1, ?_, by norm_num, by norm_num, fun _ _ => rfl, ?_, fun hne _ => absurd hs1 hne⟩
    · rw [jaccard_ok h1 h2, if_pos ⟨hs1, hs2⟩]
    · rintro (⟨_, hne⟩ | ⟨hne, _⟩)
      · exact absurd hs2 hne
      · exact absurd hs1 hne
  · refine ⟨0, ?_, by norm_num, by norm_num, fun _ h => absurd h hs2, fun _ => rfl,
      fun hne _ => absurd hs1 hne⟩
    rw [jaccard_ok h1 h2, if_neg (fun hh => hs2 hh.2), if_pos (Or.inl hs1)]
  · refine ⟨0, ?_, by norm_num, by norm_num, fun h _ => absurd h hs1, fun _ => rfl,
      fun _ hne => absurd hs2 hne⟩
    rw [jaccard_ok h1 h2, if_neg (fun hh => hs1 hh.1), if_pos (Or.inr hs2)]
  · have hsub : (s1 ∩ s2).card ≤ (s1 ∪ s2).card :=
      Finset.card_le_card Finset.inter_subset_union
    have hpos : 0 < (s1 ∪ s2).card :=
      Finset.card_pos.mpr ((Finset.nonempty_iff_ne_empty.mpr hs1).mono
        Finset.subset_union_left)
    refine ⟨((s1 ∩ s2).card : ℚ) / ((s1 ∪ s2).card : ℚ), ?_, ?_, ?_,
      fun h _ => absurd h hs1, ?_, fun _ _ => ⟨rfl, hpos⟩⟩
    · rw [jaccard_ok h1 h2, if_neg (fun hh => hs1 hh.1), if_neg ?_]
      rintro (h | h)
      · exact hs1 h
      · exact hs2 h
    · positivity
    · exact div_le_one_of_le₀ (by exact_mod_cast hsub) (by positivity)
    · rintro (⟨h, _⟩ | ⟨_, h⟩)
      · exact absurd h hs1
      · exact absurd h hs2

/-- Witness for C7 on concrete inputs whose normalized sets are both `{"/a"}`:
the Jaccard value is defined, is 1/1, and lies in the unit interval. -/
theorem C7_witness :
    ∃ q : ℚ, jaccard ["http://x/a?b=1"] ["http://y/a"] = .ok q ∧ 0 ≤ q ∧ q ≤ 1 ∧
      (({"/a"} : Finset String) = ∅ → ({"/a"} : Finset String) = ∅ → q = 1) ∧
      ((({"/a"} : Finset String) = ∅ ∧ ({"/a"} : Finset String) ≠ ∅) ∨
        (({"/a"} : Finset String) ≠ ∅ ∧ ({"/a"} : Finset String) = ∅) → q = 0) ∧
      (({"/a"} : Finset String) ≠ ∅ → ({"/a"} : Finset String) ≠ ∅ →
        q = ((({"/a"} : Finset String) ∩ {"/a"}).card : ℚ) /
              ((({"/a"} : Finset String) ∪ {"/a"}).card : ℚ) ∧
          0 < (({"/a"} : Finset String) ∪ {"/a"}).card) :=
  C7_jaccard_index_in_unit_interval ["http://x/a?b=1"] ["http://y/a"] {"/a"} {"/a"} rfl rfl

/-! ### Claim C8 -/

/-- C8 counterexample: a whitespace-only entry is not discarded — `" "` is truthy
in Python, is stripped to `""`, and `urlsplit("").path = ""` is added to the
normalized set, so a list of whitespace-only strings normalizes to `{""}`, not to
the empty set as claimed. -/
theorem C8_counterexample :
    _normalize [" "] = .ok {""} ∧ ({""} : Finset String) ≠ (∅ : Finset String) :=
  ⟨rfl, by decide⟩

/-- C8 (amended): entries that are empty strings are discarded, but a
whitespace-only entry is stripped to `""` and contributes the empty-string key to
the normalized set (`[" "]` normalizes to `{""}`, not `∅`); every kept entry
contributes exactly the path component of its stripped form — a key `p` is in the
normalized set iff some non-empty entry's `urlsplit` path equals `p`, and no path
ever contains a `'?'` or `'#'` character (query string and fragment removed), so
`similarity(["/a?x=1"], ["/a?y=2"]) = 1.0`. -/
theorem C8_normalization_paths :
    jaccard ["/a?x=1"] ["/a?y=2"] = .ok 1 ∧
    _normalize [""] = .ok ∅ ∧
    _normalize [" "] = .ok {""} ∧
    (∀ (urls : List String) (s : Finset String), _normalize urls = .ok s →
      ∀ p : String, p ∈ s ↔ ∃ u ∈ urls, u ≠ "" ∧
        ∃ r, urlsplit (pyStrip u) = .ok r ∧ r.path = p) ∧
    (∀ (u : String) (r : SplitResult), urlsplit u = .ok r →
      ∀ c ∈ r.path.toList, c ≠ '?' ∧ c ≠ '#') := by
  refine ⟨?_, rfl, rfl, fun urls s h p => ?_, urlsplit_path_chars⟩
  · have h := jaccard_ok (show _normalize ["/a?x=1"] = .ok {"/a"} from rfl)
      (show _normalize ["/a?y=2"] = .ok {"/a"} from rfl)
    rw [h, if_neg (by decide), if_neg (by decide), Finset.inter_self, Finset.union_self,
      Finset.card_singleton]
    norm_num
  · rw [mem_normAcc_ok urls ∅ s h p]
    simp

/-- Witness for C8: the membership characterization applied to the concrete input
`["/a?x=1"]`, whose normalized set is `{"/a"}`. -/
theorem C8_witness :
    ("/a" ∈ ({"/a"} : Finset String)) ↔ ∃ u ∈ (["/a?x=1"] : List String), u ≠ "" ∧
      ∃ r, urlsplit (pyStrip u) = .ok r ∧ r.path = "/a" :=
  C8_normalization_paths.2.2.2.1 ["/a?x=1"] {"/a"} rfl "/a"

/-! ### Claim C10 -/

/-- C10 counterexample: `similarity` is not total — on the malformed URL
`"http://[::1"` (an unclosed IPv6 bracket) CPython's `urlsplit` raises
`ValueError("Invalid IPv6 URL")`, which `jaccard` does not catch, so the call
raises instead of returning a float. -/
theorem C10_counterexample :
    jaccard ["http://[::1"] [] = .error "Invalid IPv6 URL" := rfl

/-- C10 (amended): `jaccard` raises `ValueError` when an entry's authority
contains a mismatched square bracket (e.g. `"http://[::1"`); on any pair of
inputs all of whose non-empty entries parse, it does return a rational value. -/
theorem C10_raises_on_invalid_ipv6_total_otherwise :
    jaccard ["http://[::1"] [] = .error "Invalid IPv6 URL" ∧
    (∀ A B : List String,
      (∀ u ∈ A, ∃ r, urlsplit (pyStrip u) = .ok r) →
      (∀ u ∈ B, ∃ r, urlsplit (pyStrip u) = .ok r) →
      ∃ q : ℚ, jaccard A B = .ok q) := by
  refine ⟨rfl, fun A B hA hB => ?_⟩
  obtain ⟨s1, h1⟩ := normAcc_total A ∅ hA
  obtain ⟨s2, h2⟩ := normAcc_total B ∅ hB
  exact ⟨_, jaccard_ok h1 h2⟩

/-- Witness for C10: every entry of `["/a"]` parses, so the similarity to the
empty list is a defined rational. -/
theorem C10_witness : ∃ q : ℚ, jaccard ["/a"] [] = .ok q :=
  C10_raises_on_invalid_ipv6_total_otherwise.2 ["/a"] []
    (by
      intro u hu
      rw [List.mem_singleton.mp hu]
      exact ⟨⟨"", "", "/a", "", ""⟩, rfl⟩)
    (by
      intro u hu
      exact absurd hu (List.not_mem_nil u))

end FindSim
